import Mathlib

/-!
Shallow embedding of the `cloth` 2D software rasterizer (`src/lib.rs`)
and proofs about its path builder, scanline fill engine and blend engine.

The source's `f32` arithmetic is modelled exactly over `ℚ`.  The one
operation that can produce a NaN in the source — the `0.0 / 0.0` division
inside `Cloth::blend`'s `comp` — is modelled with `Option ℚ` (`none`
standing for NaN), and Rust's saturating `as u8` / `as u32` casts are
modelled explicitly, including their NaN-to-zero behaviour.
-/

namespace cloth

/-- Color: `pub type Color = [u8; 4]`; fields `r g b a` stand for the
array components `[0] [1] [2] [3]`. -/
structure Color where
  r : ℕ
  g : ℕ
  b : ℕ
  a : ℕ
  deriving DecidableEq, Repr

/-- Rust `f32::trunc` (round toward zero), on the exact rational model. -/
def rustTrunc (v : ℚ) : ℤ := if 0 ≤ v then ⌊v⌋ else -⌊-v⌋

/-- Rust `f32::round` (round half away from zero). -/
def rustRound (v : ℚ) : ℤ := if 0 ≤ v then ⌊v + 1/2⌋ else -⌊-v + 1/2⌋

/-- Rust `f32::fract`, defined as `self - self.trunc()`. -/
def fract (v : ℚ) : ℚ := v - rustTrunc v

/-- The source's `fn f2u(v: f32) -> u8 { (v * 255.0).round() as u8 }`;
the `as u8` cast saturates to `0..=255`. -/
def f2u (v : ℚ) : ℕ := (min 255 (max 0 (rustRound (v * 255)))).toNat

/-- `f2u` applied to the result of `comp`, where `none` models a NaN:
Rust's saturating cast sends NaN to `0`. -/
def f2uN : Option ℚ → ℕ
  | none => 0
  | some v => f2u v

/-- The source's `fn u2f(v: u8) -> f32 { (v as f32) / 255.0 }`. -/
def u2f (v : ℕ) : ℚ := v / 255

/-- Inner `fn comp` of `Cloth::blend`:
`(ca * aa + cb * ab * (1.0 - aa)) / (aa + ab * (1.0 - aa))`.
In `f32` this division returns NaN exactly when numerator and denominator
are both zero; for arguments in `[0, 1]` (always the case in `blend`,
whose arguments are `u2f` images of bytes) the denominator vanishes only
when `aa = ab = 0`, which also zeroes the numerator, so returning `none`
on a zero denominator models the NaN faithfully. -/
def comp (ca cb aa ab : ℚ) : Option ℚ :=
  if aa + ab * (1 - aa) = 0 then none
  else some ((ca * aa + cb * ab * (1 - aa)) / (aa + ab * (1 - aa)))

/-- `Cloth::blend` (old color first, new color second, as in the source). -/
def blend (old new : Color) : Color :=
  { r := f2uN (comp (u2f new.r) (u2f old.r) (u2f new.a) (u2f old.a))
    g := f2uN (comp (u2f new.g) (u2f old.g) (u2f new.a) (u2f old.a))
    b := f2uN (comp (u2f new.b) (u2f old.b) (u2f new.a) (u2f old.a))
    a := f2u (u2f new.a + (1 - u2f new.a) * u2f old.a) }

/-- `struct Point { x: f32, y: f32 }`. -/
structure Point where
  x : ℚ
  y : ℚ
  deriving DecidableEq, Repr

/-- `struct Line(Point, Point)`; fields `p0`, `p1` stand for `.0`, `.1`. -/
structure Line where
  p0 : Point
  p1 : Point
  deriving DecidableEq, Repr

/-- `enum Subpath { Move(Point), Line(Point) }`. -/
inductive Subpath where
  | Move : Point → Subpath
  | Line : Point → Subpath
  deriving DecidableEq, Repr

/-- `struct Path { start: Point, subpaths: Vec<Subpath>, is_closed: bool }`. -/
structure Path where
  start : Point
  subpaths : List Subpath
  is_closed : Bool
  deriving DecidableEq, Repr

/-- `Path::new`. -/
def Path.new : Path := ⟨⟨0, 0⟩, [], false⟩

/-- `Path::add`: clears the closed flag and pushes the command. -/
def Path.add (p : Path) (s : Subpath) : Path :=
  { p with is_closed := false, subpaths := p.subpaths ++ [s] }

/-- `Path::close`: if not closed, sets the flag and pushes
`Subpath::Line(self.start)`. -/
def Path.close (p : Path) : Path :=
  if p.is_closed then p
  else { p with is_closed := true, subpaths := p.subpaths ++ [Subpath.Line p.start] }

/-- Loop body of `Path::to_lines`: walk the commands keeping an active
point, emitting a segment for each `Line` command. -/
def toLinesGo : Point → List Subpath → List Line
  | _, [] => []
  | _, Subpath.Move q :: rest => toLinesGo q rest
  | active, Subpath.Line q :: rest => ⟨active, q⟩ :: toLinesGo q rest

/-- `Path::to_lines`. -/
def Path.to_lines (p : Path) : List Line := toLinesGo p.start p.subpaths

/-- `struct Cloth<T: Target>`; the target is kept abstract. -/
structure Cloth (T : Type) where
  path : Path
  target : T
  fill : Color

/-- `Cloth::new`. -/
def Cloth.new {T : Type} (target : T) : Cloth T := ⟨Path.new, target, ⟨0, 0, 0, 255⟩⟩

/-- `Cloth::set_fill`. -/
def Cloth.set_fill {T : Type} (c : Cloth T) (fill : Color) : Cloth T :=
  { c with fill := fill }

/-- `Cloth::begin_path`. -/
def Cloth.begin_path {T : Type} (c : Cloth T) : Cloth T := { c with path := Path.new }

/-- `Cloth::close_path`. -/
def Cloth.close_path {T : Type} (c : Cloth T) : Cloth T := { c with path := c.path.close }

/-- `Cloth::move_to`: sets the path's start point, then adds a `Move`. -/
def Cloth.move_to {T : Type} (c : Cloth T) (x y : ℚ) : Cloth T :=
  { c with path := Path.add { c.path with start := ⟨x, y⟩ } (Subpath.Move ⟨x, y⟩) }

/-- `Cloth::line_to`. -/
def Cloth.line_to {T : Type} (c : Cloth T) (x y : ℚ) : Cloth T :=
  { c with path := c.path.add (Subpath.Line ⟨x, y⟩) }

/-- `struct Rect { tl: Point, br: Point }`. -/
structure Rect where
  tl : Point
  br : Point
  deriving DecidableEq, Repr

/-- Largest finite `f32` value `f32::MAX = (2 - 2^-23) * 2^127`, exactly. -/
def f32MAX : ℚ := 2 ^ 128 - 2 ^ 104

/-- Inner `fn constrain` of `Lines::bounds`. -/
def constrain (b : Rect) (p : Point) : Rect :=
  ⟨⟨min b.tl.x p.x, min b.tl.y p.y⟩, ⟨max b.br.x p.x, max b.br.y p.y⟩⟩

/-- `Lines::bounds`: fold `constrain` over both endpoints of every line,
starting from `(f32::MAX, f32::MAX) / (f32::MIN, f32::MIN)`. -/
def bounds (ls : List Line) : Rect :=
  ls.foldl (fun b l => constrain (constrain b l.p0) l.p1)
    ⟨⟨f32MAX, f32MAX⟩, ⟨-f32MAX, -f32MAX⟩⟩

/-- Crossing test of `Lines::x_intersections`:
`(line.0.y < y && line.1.y >= y) || (line.1.y < y && line.0.y >= y)`. -/
def lineHit (l : Line) (y : ℚ) : Bool :=
  (decide (l.p0.y < y) && decide (l.p1.y ≥ y)) ||
    (decide (l.p1.y < y) && decide (l.p0.y ≥ y))

/-- Crossing abscissa pushed by `Lines::x_intersections`:
`line.0.x + (y - line.0.y) / (line.1.y - line.0.y) * (line.1.x - line.0.x)`. -/
def lineX (l : Line) (y : ℚ) : ℚ :=
  l.p0.x + (y - l.p0.y) / (l.p1.y - l.p0.y) * (l.p1.x - l.p0.x)

/-- The unsorted crossing list built by `Lines::x_intersections`. -/
def collectXs (ls : List Line) (y : ℚ) : List ℚ :=
  ls.filterMap fun l => if lineHit l y then some (lineX l y) else none

/-- `Lines::x_intersections`: collect then sort ascending.  Over `ℚ`,
a total order, the source's `partial_cmp` fallback to `Equal` never
fires, so a plain sort by `≤` is faithful. -/
def x_intersections (ls : List Line) (y : ℚ) : List ℚ :=
  List.insertionSort (· ≤ ·) (collectXs ls y)

/-- Rust saturating cast `as u32` applied to an integral value (negative
values go to `0`, values above `u32::MAX` to `u32::MAX`). -/
def i2u32 (z : ℤ) : ℕ := (min z (2 ^ 32 - 1)).toNat

/-- The `u32` expression `w - 1`, wrapping when `w = 0` (release-build
semantics of the source's `self.target.width() - 1`). -/
def u32Pred (w : ℕ) : ℕ := (w + (2 ^ 32 - 1)) % 2 ^ 32

/-- `cmp::max(0, pair[0].floor() as u32)` of `Cloth::fill`. -/
def spanStart (x0 : ℚ) : ℕ := max 0 (i2u32 ⌊x0⌋)

/-- `cmp::min(pair[1].floor() as u32, self.target.width() - 1)`. -/
def spanEnd (w : ℕ) (x1 : ℚ) : ℕ := min (i2u32 ⌊x1⌋) (u32Pred w)

/-- Pixel columns visited by `for x in start..=end` (empty when
`start > end`, as for Rust's inclusive range). -/
def spanCols (s e : ℕ) : List ℕ := if s ≤ e then List.range' s (e - s + 1) else []

/-- Color passed to `fill_pixel` at column `x` of the span `[x0, x1]`
with clamped columns `s..=e`: the `if x == start { start_fill } else if
x == end { end_fill } else { fill }` selection of `Cloth::fill`. -/
def spanPixelColor (fillc : Color) (x0 x1 : ℚ) (s e x : ℕ) : Color :=
  if x = s then { fillc with a := f2u (u2f fillc.a * (1 - fract x0)) }
  else if x = e then { fillc with a := f2u (u2f fillc.a * fract x1) }
  else fillc

/-- `xs.chunks(2).filter(|c| c.len() == 2)`: consecutive pairs, an
unpaired trailing element dropped. -/
def chunkPairs : List ℚ → List (ℚ × ℚ)
  | a :: b :: rest => (a, b) :: chunkPairs rest
  | _ => []

/-- Fuel-driven unfolding of `Cloth::fill`'s `while y >= bounds.tl.y`
loop body (one row per iteration, stepping `y` down by `1.0`). -/
def sweepRowsAux : ℕ → ℚ → ℚ → List ℚ
  | 0, _, _ => []
  | fuel + 1, ytl, y => if ytl ≤ y then y :: sweepRowsAux fuel ytl (y - 1) else []

/-- Rows visited by `Cloth::fill`'s sweep loop, starting at `y` and
running while `y ≥ ytl`.  The fuel `(⌊y - ytl⌋ + 1).toNat` is exactly
the number of iterations the loop performs, so the fuelled recursion
computes the same row list as the source's `while` loop. -/
def sweepRows (ytl : ℚ) (y : ℚ) : List ℚ := sweepRowsAux (⌊y - ytl⌋ + 1).toNat ytl y

/-- The `(column, row, color)` triples passed to `fill_pixel` by
`Cloth::fill`, in call order, for a path flattened to `ls`, fill color
`fillc` and a `w × h` target.  `fill_pixel(x, y, c)` calls
`get_pixel(x, y)` and `set_pixel(x, y, ..)` at exactly these
coordinates; the row index is `y as u32` (truncating, saturating). -/
def fillTrace (ls : List Line) (fillc : Color) (w h : ℕ) : List (ℕ × ℕ × Color) :=
  let b := bounds ls
  let y0 := max 0 (min b.br.y (h : ℚ))
  (sweepRows b.tl.y y0).flatMap fun y =>
    (chunkPairs (x_intersections ls (y + 1/2))).flatMap fun pr =>
      (spanCols (spanStart pr.1) (spanEnd w pr.2)).map fun x =>
        (x, i2u32 (rustTrunc y), spanPixelColor fillc pr.1 pr.2 (spanStart pr.1) (spanEnd w pr.2) x)

/-- `Cloth::fill`'s pixel access trace: the method first closes the
active path, then rasterizes it with the active fill color. -/
def Cloth.fill_writes {T : Type} (c : Cloth T) (w h : ℕ) : List (ℕ × ℕ × Color) :=
  fillTrace c.path.close.to_lines c.fill w h

/-! ## Spec-side definitions

These follow the specification's wording, for the refinement claims that
compare the code against the spec's formulas. -/

/-- Spec-worded crossing rule: exactly one endpoint's y-coordinate is
strictly less than the sample line `Y` (the other then being `≥ Y`). -/
def specHit (l : Line) (Y : ℚ) : Prop :=
  (l.p0.y < Y ∧ ¬l.p1.y < Y) ∨ (l.p1.y < Y ∧ ¬l.p0.y < Y)

instance (l : Line) (Y : ℚ) : Decidable (specHit l Y) := by
  unfold specHit; infer_instance

/-- Spec-worded linear interpolation
`startX + (Y - startY) / (endY - startY) * (endX - startX)`. -/
def specX (l : Line) (Y : ℚ) : ℚ :=
  l.p0.x + (Y - l.p0.y) / (l.p1.y - l.p0.y) * (l.p1.x - l.p0.x)

/-- Spec-worded re-quantization: round-to-nearest (not truncation) of a
normalized channel back to the 0–255 integer range. -/
def specQuant (v : ℚ) : ℕ := (min 255 (max 0 ⌊v * 255 + 1/2⌋)).toNat

/-- Spec-worded source-over blend: channels normalized by dividing by
255; output alpha `aN + (1 - aN) * aO`; each channel
`(cN * aN + cO * aO * (1 - aN)) / outAlpha`, then re-quantized.  The
division is `ℚ`'s total division, which returns `0` at a zero output
alpha — the defined short-circuit value the spec's §7 asks for. -/
def blendSpec (old new : Color) : Color :=
  let aN : ℚ := (new.a : ℚ) / 255
  let aO : ℚ := (old.a : ℚ) / 255
  let outA : ℚ := aN + (1 - aN) * aO
  { r := specQuant (((new.r : ℚ) / 255 * aN + (old.r : ℚ) / 255 * aO * (1 - aN)) / outA)
    g := specQuant (((new.g : ℚ) / 255 * aN + (old.g : ℚ) / 255 * aO * (1 - aN)) / outA)
    b := specQuant (((new.b : ℚ) / 255 * aN + (old.b : ℚ) / 255 * aO * (1 - aN)) / outA)
    a := specQuant outA }

/-! ## Helper lemmas -/

theorem u2f_nonneg (n : ℕ) : 0 ≤ u2f n := by
  unfold u2f; positivity

theorem u2f_le_one {n : ℕ} (h : n ≤ 255) : u2f n ≤ 1 := by
  unfold u2f
  rw [div_le_one (by norm_num)]
  exact_mod_cast h

theorem u2f_eq_zero {n : ℕ} : u2f n = 0 ↔ n = 0 := by
  unfold u2f
  rw [div_eq_zero_iff]
  norm_num

theorem floor_nat_add_half (n : ℕ) : ⌊(n : ℚ) + 1/2⌋ = n := by
  rw [show ((n : ℚ) + 1/2) = ((n : ℤ) : ℚ) + 1/2 by push_cast; ring, Int.floor_int_add]
  norm_num

theorem f2u_u2f {n : ℕ} (h : n ≤ 255) : f2u (u2f n) = n := by
  unfold f2u u2f rustRound
  rw [div_mul_cancel₀ _ (by norm_num : (255 : ℚ) ≠ 0), if_pos (by positivity), floor_nat_add_half]
  omega

theorem f2u_zero : f2u 0 = 0 := by
  unfold f2u rustRound
  norm_num

theorem f2u_one : f2u 1 = 255 := by
  unfold f2u rustRound
  norm_num
  rfl

theorem comp_zeros (ca cb : ℚ) : comp ca cb 0 0 = none := by
  unfold comp
  norm_num

theorem comp_opaque (ca cb ab : ℚ) : comp ca cb 1 ab = some ca := by
  unfold comp
  norm_num

theorem comp_transparent (ca cb : ℚ) {ab : ℚ} (h : ab ≠ 0) : comp ca cb 0 ab = some cb := by
  unfold comp
  rw [if_neg (by simpa using h)]
  congr 1
  field_simp

theorem blend_both_zero {old new : Color} (ho : old.a = 0) (hn : new.a = 0) :
    blend old new = ⟨0, 0, 0, 0⟩ := by
  have h0 : u2f 0 = 0 := by unfold u2f; norm_num
  unfold blend
  rw [ho, hn, h0, comp_zeros, comp_zeros, comp_zeros]
  simp only [f2uN]
  norm_num [f2u_zero]

theorem blend_transparent {old new : Color} (hr : old.r ≤ 255) (hg : old.g ≤ 255)
    (hb : old.b ≤ 255) (ha : old.a ≤ 255) (hn : new.a = 0) (ho : old.a ≠ 0) :
    blend old new = old := by
  have h0 : u2f 0 = 0 := by unfold u2f; norm_num
  have hoa : u2f old.a ≠ 0 := fun hc => ho (u2f_eq_zero.mp hc)
  unfold blend
  rw [hn, h0, comp_transparent _ _ hoa, comp_transparent _ _ hoa, comp_transparent _ _ hoa]
  simp only [f2uN]
  rw [f2u_u2f hr, f2u_u2f hg, f2u_u2f hb,
    show (0 : ℚ) + (1 - 0) * u2f old.a = u2f old.a by ring, f2u_u2f ha]

theorem blend_opaque {old new : Color} (hr : new.r ≤ 255) (hg : new.g ≤ 255)
    (hb : new.b ≤ 255) (hn : new.a = 255) : blend old new = new := by
  have h1 : u2f 255 = 1 := by unfold u2f; norm_num
  unfold blend
  rw [hn, h1, comp_opaque, comp_opaque, comp_opaque]
  simp only [f2uN]
  rw [f2u_u2f hr, f2u_u2f hg, f2u_u2f hb,
    show (1 : ℚ) + (1 - 1) * u2f old.a = 1 by ring, f2u_one, ← hn]

theorem f2u_eq_specQuant {v : ℚ} (h : 0 ≤ v) : f2u v = specQuant v := by
  unfold f2u specQuant rustRound
  rw [if_pos (by positivity)]

theorem specQuant_zero : specQuant 0 = 0 := by
  unfold specQuant
  norm_num

theorem channel_matches_spec (cN cO : ℕ) {aa ab : ℚ} (ha0 : 0 ≤ aa) (ha1 : aa ≤ 1)
    (hb0 : 0 ≤ ab) :
    f2uN (comp (u2f cN) (u2f cO) aa ab) =
      specQuant (((cN : ℚ) / 255 * aa + (cO : ℚ) / 255 * ab * (1 - aa)) / (aa + (1 - aa) * ab)) := by
  have hsd : aa + (1 - aa) * ab = aa + ab * (1 - aa) := by ring
  by_cases hd : aa + ab * (1 - aa) = 0
  · unfold comp
    rw [if_pos hd, hsd, hd, div_zero, specQuant_zero]
    rfl
  · have hnn : 0 ≤ aa + ab * (1 - aa) := by
      have := mul_nonneg hb0 (by linarith : (0 : ℚ) ≤ 1 - aa)
      linarith
    have hv0 : 0 ≤ (u2f cN * aa + u2f cO * ab * (1 - aa)) / (aa + ab * (1 - aa)) := by
      apply div_nonneg _ hnn
      have h1 := mul_nonneg (u2f_nonneg cN) ha0
      have h2 := mul_nonneg (mul_nonneg (u2f_nonneg cO) hb0) (by linarith : (0 : ℚ) ≤ 1 - aa)
      linarith
    unfold comp
    rw [if_neg hd]
    show f2u _ = _
    rw [f2u_eq_specQuant hv0, hsd]
    rfl

theorem blend_eq_blendSpec (old new : Color) (ho : old.a ≤ 255) (hn : new.a ≤ 255) :
    blend old new = blendSpec old new := by
  have han := u2f_nonneg new.a
  have hao := u2f_nonneg old.a
  have han1 := u2f_le_one hn
  have hu : ∀ n : ℕ, u2f n = (n : ℚ) / 255 := fun n => rfl
  unfold blend blendSpec
  simp only
  rw [channel_matches_spec new.r old.r han han1 hao,
    channel_matches_spec new.g old.g han han1 hao,
    channel_matches_spec new.b old.b han han1 hao]
  have halpha : 0 ≤ u2f new.a + (1 - u2f new.a) * u2f old.a := by
    have := mul_nonneg (by linarith : (0 : ℚ) ≤ 1 - u2f new.a) hao
    linarith
  rw [f2u_eq_specQuant halpha]
  simp only [hu]

theorem lineHit_eq_decide_specHit (l : Line) (Y : ℚ) :
    lineHit l Y = decide (specHit l Y) := by
  unfold lineHit specHit
  simp only [ge_iff_le, ← not_lt, decide_not, Bool.decide_or, Bool.decide_and]

theorem collectXs_eq (ls : List Line) (Y : ℚ) :
    collectXs ls Y = (ls.filter fun l => lineHit l Y).map fun l => lineX l Y := by
  induction ls with
  | nil => rfl
  | cons a t ih =>
    unfold collectXs at ih ⊢
    rw [List.filterMap_cons, List.filter_cons]
    cases h : lineHit a Y <;> simp [h, ih]

theorem u32Pred_eq {w : ℕ} (h1 : 1 ≤ w) (h2 : w < 2 ^ 32) : u32Pred w = w - 1 := by
  unfold u32Pred
  omega

theorem spanCols_nil {s e : ℕ} (h : e < s) : spanCols s e = [] := by
  unfold spanCols
  rw [if_neg (by omega)]

theorem chunkPairs_dropLast : ∀ xs : List ℚ, xs.length % 2 = 1 →
    chunkPairs xs = chunkPairs xs.dropLast
  | [], h => by simp at h
  | [a], _ => rfl
  | a :: b :: rest, h => by
    have hlen : rest.length % 2 = 1 := by simp at h; omega
    have hne : rest ≠ [] := by
      intro hc
      rw [hc] at hlen
      simp at hlen
    obtain ⟨c, rest', rfl⟩ := List.exists_cons_of_ne_nil hne
    show (a, b) :: chunkPairs (c :: rest') = chunkPairs ((a :: b :: c :: rest').dropLast)
    rw [List.dropLast_cons₂, List.dropLast_cons₂]
    show (a, b) :: chunkPairs (c :: rest') = (a, b) :: chunkPairs ((c :: rest').dropLast)
    rw [chunkPairs_dropLast (c :: rest') hlen]

/-! ## Demonstration inputs for the concrete theorems -/

/-- A rectangle from `(0, 0)` to `(2, 3)`, built through the public
path-building calls; its bounds extend below a height-1 surface. -/
def oobDemo : Cloth Unit :=
  ((((Cloth.new ()).move_to 0 0).line_to 2 0).line_to 2 3).line_to 0 3

/-- A rectangle from `(-5, 0)` to `(-3, 2)`: entirely to the left of any
surface, so every span's two x-intersections (`-5` and `-3`) lie outside
the surface's horizontal range. -/
def leftDemo : Cloth Unit :=
  ((((Cloth.new ()).move_to (-5) 0).line_to (-3) 0).line_to (-3) 2).line_to (-5) 2

/-! ## Claim theorems -/

set_option maxRecDepth 100000 in
/-- C1: REFUTED (code bug).  The claim says fill never accesses a pixel
with row `y ≥ height`.  But the sweep's starting row is clamped to
`height` (not `height - 1`): filling the rectangle `(0,0)–(2,3)` on a
2-wide, 1-high surface makes `fill` call `get_pixel`/`set_pixel` at
row `1 = height`, out of range.  This theorem evaluates the embedded
`Cloth::fill` at that failing input. -/
theorem fill_accesses_row_at_height :
    oobDemo.fill_writes 2 1 =
      [(0, 1, ⟨0, 0, 0, 255⟩), (1, 1, ⟨0, 0, 0, 0⟩),
       (0, 0, ⟨0, 0, 0, 255⟩), (1, 0, ⟨0, 0, 0, 0⟩)] := by
  with_unfolding_all decide

/-- C2: blending two colors that both have alpha 0 (the only way the
blended output alpha is exactly 0) returns the defined color
`[0, 0, 0, 0]`: the NaN produced by the `0/0` un-premultiply division is
saturated to `0` by the `as u8` cast, so no NaN-derived garbage is
stored. -/
theorem blend_zero_alpha_defined (old new : Color) (ho : old.a = 0) (hn : new.a = 0) :
    blend old new = ⟨0, 0, 0, 0⟩ :=
  blend_both_zero ho hn

/-- C2 witness. -/
theorem blend_zero_alpha_defined_witness :
    blend ⟨7, 8, 9, 0⟩ ⟨1, 2, 3, 0⟩ = ⟨0, 0, 0, 0⟩ :=
  blend_zero_alpha_defined ⟨7, 8, 9, 0⟩ ⟨1, 2, 3, 0⟩ rfl rfl

/-- C3 counterexample: blending a fully-transparent new color over an
existing pixel with nonzero color channels but alpha 0 does NOT return
the existing pixel unchanged — the un-premultiply `0/0` wipes the
channels to 0. -/
theorem blend_transparent_noop_cex :
    blend ⟨255, 0, 0, 0⟩ ⟨0, 0, 0, 0⟩ ≠ ⟨255, 0, 0, 0⟩ := by
  with_unfolding_all decide

/-- C3 (amended): blending a fully-transparent new color (alpha 0) over
an existing pixel returns the existing pixel unchanged whenever the
existing pixel's alpha is nonzero; when the existing alpha is 0, the
result is `[0, 0, 0, 0]` instead. -/
theorem blend_transparent_noop_amended (old new : Color) (hr : old.r ≤ 255)
    (hg : old.g ≤ 255) (hb : old.b ≤ 255) (ha : old.a ≤ 255) (hn : new.a = 0) :
    (old.a ≠ 0 → blend old new = old) ∧ (old.a = 0 → blend old new = ⟨0, 0, 0, 0⟩) :=
  ⟨fun ho => blend_transparent hr hg hb ha hn ho, fun ho => blend_both_zero ho hn⟩

/-- C3 witness. -/
theorem blend_transparent_noop_amended_witness :
    (10 : ℕ) ≠ 0 ∧ blend ⟨3, 4, 5, 10⟩ ⟨9, 9, 9, 0⟩ = ⟨3, 4, 5, 10⟩ :=
  ⟨by decide,
    (blend_transparent_noop_amended ⟨3, 4, 5, 10⟩ ⟨9, 9, 9, 0⟩ (by decide) (by decide)
      (by decide) (by decide) rfl).1 (by decide)⟩

/-- C4: blending a fully-opaque new color (alpha 255) over any existing
pixel returns exactly the new color in all four channels, the
normalize/re-quantize round trip included. -/
theorem blend_opaque_overwrite (old new : Color) (hr : new.r ≤ 255) (hg : new.g ≤ 255)
    (hb : new.b ≤ 255) (hn : new.a = 255) : blend old new = new :=
  blend_opaque hr hg hb hn

/-- C4 witness. -/
theorem blend_opaque_overwrite_witness :
    blend ⟨200, 100, 50, 25⟩ ⟨1, 2, 3, 255⟩ = ⟨1, 2, 3, 255⟩ :=
  blend_opaque_overwrite ⟨200, 100, 50, 25⟩ ⟨1, 2, 3, 255⟩ (by decide) (by decide)
    (by decide) rfl

/-- C5: `blend` computes exactly the spec's formulas — inputs normalized
by dividing by 255, output alpha `aN + (1 - aN) * aO`, each channel
`(cN*aN + cO*aO*(1-aN)) / outAlpha`, and every normalized result
re-quantized to 0–255 by round-to-nearest (`blendSpec`, written from
the spec's words).  Alpha bytes are in range, as they are for `u8`. -/
theorem blend_matches_spec_formula (old new : Color) (ho : old.a ≤ 255) (hn : new.a ≤ 255) :
    blend old new = blendSpec old new :=
  blend_eq_blendSpec old new ho hn

/-- C5 witness. -/
theorem blend_matches_spec_formula_witness :
    (40 : ℕ) ≤ 255 ∧ blend ⟨10, 20, 30, 40⟩ ⟨50, 60, 70, 80⟩ = blendSpec ⟨10, 20, 30, 40⟩ ⟨50, 60, 70, 80⟩ :=
  ⟨by decide, blend_matches_spec_formula ⟨10, 20, 30, 40⟩ ⟨50, 60, 70, 80⟩ (by decide) (by decide)⟩

/-- C6: the intersection list is exactly (up to the ascending sort) one
linear-interpolation abscissa per segment satisfying the spec's rule —
one endpoint strictly below the sample line, the other not; the code's
test is equivalent to that rule; and a horizontal segment (equal
endpoint y-coordinates) never contributes. -/
theorem x_intersections_spec :
    (∀ (ls : List Line) (Y : ℚ),
      (x_intersections ls Y).Perm
        ((ls.filter fun l => decide (specHit l Y)).map fun l => specX l Y))
    ∧ (∀ (l : Line) (Y : ℚ), lineHit l Y = true ↔ specHit l Y)
    ∧ (∀ (a b h Y : ℚ), lineHit ⟨⟨a, h⟩, ⟨b, h⟩⟩ Y = false) := by
  refine ⟨fun ls Y => ?_, fun l Y => ?_, fun a b h Y => ?_⟩
  · have e1 : (fun l => lineHit l Y) = fun l => decide (specHit l Y) :=
      funext fun l => lineHit_eq_decide_specHit l Y
    have e2 : (fun l => lineX l Y) = fun l => specX l Y := rfl
    have heq : collectXs ls Y =
        (ls.filter fun l => decide (specHit l Y)).map fun l => specX l Y := by
      rw [collectXs_eq, e1, e2]
    have hperm := List.perm_insertionSort (· ≤ ·) (collectXs ls Y)
    unfold x_intersections
    rw [← heq]
    exact hperm
  · rw [lineHit_eq_decide_specHit]
    exact decide_eq_true_iff
  · rw [lineHit_eq_decide_specHit]
    simp [specHit]

set_option maxRecDepth 100000 in
/-- C7 counterexample: a span whose two x-intersections (`-5` and `-3`)
both lie entirely outside (left of) the surface's horizontal range
nevertheless writes a pixel — the saturating `as u32` cast clamps both
ends to column 0, so `fill` blends column 0 on each covered row. -/
theorem left_span_writes_pixel_cex :
    leftDemo.fill_writes 10 10 = [(0, 1, ⟨0, 0, 0, 255⟩), (0, 0, ⟨0, 0, 0, 255⟩)] := by
  with_unfolding_all decide

/-- C7 (amended): a span whose two x-intersections both lie at or beyond
the right edge of the surface, or whose clamped end column is less than
its clamped start column, causes no pixel to be read, blended, or
written; but a span lying entirely to the left of the surface (both
intersections negative) is clamped to the single column 0, which IS
blended; and an odd trailing x-intersection is silently discarded (the
pairing of a scanline's intersection list ignores it). -/
theorem span_clamp_amended :
    (∀ (w : ℕ) (x0 x1 : ℚ), 1 ≤ w → w < 2 ^ 32 → (w : ℚ) ≤ x0 →
      spanCols (spanStart x0) (spanEnd w x1) = [])
    ∧ (∀ (w : ℕ) (x0 x1 : ℚ), spanEnd w x1 < spanStart x0 →
      spanCols (spanStart x0) (spanEnd w x1) = [])
    ∧ (∀ (w : ℕ) (x0 x1 : ℚ), 1 ≤ w → x0 ≤ x1 → x1 < 0 →
      spanCols (spanStart x0) (spanEnd w x1) = [0])
    ∧ (∀ xs : List ℚ, xs.length % 2 = 1 → chunkPairs xs = chunkPairs xs.dropLast) := by
  refine ⟨fun w x0 x1 h1 h2 h3 => ?_, fun w x0 x1 h => spanCols_nil h,
    fun w x0 x1 h1 h2 h3 => ?_, chunkPairs_dropLast⟩
  · apply spanCols_nil
    have hf : (w : ℤ) ≤ ⌊x0⌋ := Int.le_floor.mpr (by exact_mod_cast h3)
    unfold spanStart spanEnd i2u32 u32Pred
    omega
  · have hf1 : ⌊x1⌋ < 0 := Int.floor_lt.mpr (by exact_mod_cast h3)
    have hf0 : ⌊x0⌋ < 0 := Int.floor_lt.mpr (by push_cast; linarith)
    have hs : spanStart x0 = 0 := by unfold spanStart i2u32; omega
    have he : spanEnd w x1 = 0 := by unfold spanEnd i2u32 u32Pred; omega
    rw [hs, he]
    unfold spanCols
    norm_num [List.range']

/-- C7 witness. -/
theorem span_clamp_amended_witness :
    (1 : ℕ) ≤ 10 ∧ spanCols (spanStart (-5)) (spanEnd 10 (-3)) = [0] :=
  ⟨by decide, span_clamp_amended.2.2.1 10 (-5) (-3) (by norm_num) (by norm_num) (by norm_num)⟩

/-- C8: closing a not-yet-closed path appends exactly one synthetic
`Line` command back to the path's start point and sets the closed flag;
closing an already-closed path changes nothing; every `move_to` or
`line_to` clears the flag; and a `line_to` followed by `close_path`
appends both the line and a fresh closing `Line` to the start. -/
theorem path_close_invariant :
    (∀ (s : Point) (subs : List Subpath),
      Path.close ⟨s, subs, false⟩ = ⟨s, subs ++ [Subpath.Line s], true⟩)
    ∧ (∀ (s : Point) (subs : List Subpath), Path.close ⟨s, subs, true⟩ = ⟨s, subs, true⟩)
    ∧ (∀ (p : Path) (sp : Subpath), (p.add sp).is_closed = false)
    ∧ (∀ (T : Type) (c : Cloth T) (x y : ℚ), ((c.move_to x y).path).is_closed = false)
    ∧ (∀ (T : Type) (c : Cloth T) (x y : ℚ), ((c.line_to x y).path).is_closed = false)
    ∧ (∀ (T : Type) (c : Cloth T) (x y : ℚ),
      (((c.line_to x y).close_path).path).subpaths
        = c.path.subpaths ++ [Subpath.Line ⟨x, y⟩, Subpath.Line c.path.start]) := by
  refine ⟨fun s subs => rfl, fun s subs => rfl, fun p sp => rfl,
    fun T c x y => rfl, fun T c x y => rfl, fun T c x y => ?_⟩
  show ((c.path.add (Subpath.Line ⟨x, y⟩)).close).subpaths = _
  unfold Path.close Path.add
  simp

/-- C9: when a span's clamped pixel-column range covers exactly one
column (`start = end = s`), that pixel is blended with the left-edge
alpha, the fill alpha scaled by `1 - fract x0`; the right-edge fraction
is not applied. -/
theorem single_column_uses_left_fraction (c : Color) (x0 x1 : ℚ) (s : ℕ) :
    spanPixelColor c x0 x1 s s s = { c with a := f2u (u2f c.a * (1 - fract x0)) } := by
  unfold spanPixelColor
  rw [if_pos rfl]

/-- C10: a newly constructed rasterizer, over any target, starts with
fill color opaque black `[0, 0, 0, 255]` and an empty, unclosed path
whose start point is the origin — so a fill issued before any
`set_fill` paints with opaque black. -/
theorem cloth_new_initial_state :
    (∀ (T : Type) (t : T), (Cloth.new t).fill = ⟨0, 0, 0, 255⟩ ∧ (Cloth.new t).path = Path.new)
    ∧ Path.new = ⟨⟨0, 0⟩, [], false⟩ :=
  ⟨fun T t => ⟨rfl, rfl⟩, rfl⟩

end cloth
